import Mathlib

/-!
Verification development for the mask-guided image edit compositor
(backend services `inpaint.ts`, routes `edit.ts`, library `image-io.ts`,
recolor/color-match service, and the OpenRouter error mapping).

Rasters are modelled as total functions from integer coordinates to byte
values; buffers of the code correspond to these functions restricted to
the rectangle [0,w) x [0,h).  Machine numbers of the code are modelled by
Nat / Int / Rat.  Gaussian blurs performed by the external raster library
(sharp) are modelled as separable normalized binomial convolution with
clamp-to-edge boundary handling, the standard discrete Gaussian; the claims
settled below depend only on properties every such kernel has (locality,
normalization, positivity of near weights at the concrete inputs used).
-/

namespace ImageApp

/-- Source: `function clamp(n, min, max) { return Math.min(Math.max(n, min), max) }`
(`inpaint.ts`). -/
def clamp (n lo hi : ℤ) : ℤ := min (max n lo) hi

/-- JavaScript `Math.round` on an exact rational: floor of x + 1/2. -/
def jsRound (q : ℚ) : ℤ := Int.floor (q + 1/2)

/-- Source: `export type BBox = { left; top; width; height }` (`inpaint.ts`). -/
structure BBox where
  left : ℤ
  top : ℤ
  width : ℤ
  height : ℤ
  deriving Repr, DecidableEq

/-- Area of a bounding box (width times height), used by the padding
monotonicity property. -/
def bboxArea (b : BBox) : ℤ := b.width * b.height

/-- Source: `padBBox` (`inpaint.ts`): pad the bbox and clamp it into the image. -/
def padBBox (b : BBox) (w h : ℕ) (pad : ℤ) : BBox :=
  let left := clamp (b.left - pad) 0 ((w : ℤ) - 1)
  let top := clamp (b.top - pad) 0 ((h : ℤ) - 1)
  let right := clamp (b.left + b.width - 1 + pad) 0 ((w : ℤ) - 1)
  let bottom := clamp (b.top + b.height - 1 + pad) 0 ((h : ℤ) - 1)
  ⟨left, top, right - left + 1, bottom - top + 1⟩

/-- Source: `scaleBBoxTo` (`inpaint.ts`): scale a mask-space bbox into image
space by rounding each corner (JS `Math.round`) and re-clamping. -/
def scaleBBoxTo (b : BBox) (sx sy : ℚ) (dstW dstH : ℕ) : BBox :=
  let left := clamp (jsRound ((b.left : ℚ) * sx)) 0 ((dstW : ℤ) - 1)
  let top := clamp (jsRound ((b.top : ℚ) * sy)) 0 ((dstH : ℤ) - 1)
  let right := clamp (jsRound (((b.left + b.width - 1 : ℤ) : ℚ) * sx)) 0 ((dstW : ℤ) - 1)
  let bottom := clamp (jsRound (((b.top + b.height - 1 : ℤ) : ℚ) * sy)) 0 ((dstH : ℤ) - 1)
  ⟨left, top, right - left + 1, bottom - top + 1⟩

/-- Scan state of the `bboxFromAlpha` loop: running min/max of the
coordinates of nonzero alpha pixels (`minX`, `minY`, `maxX`, `maxY`). -/
structure ScanSt where
  minX : ℤ
  minY : ℤ
  maxX : ℤ
  maxY : ℤ
  deriving Repr, DecidableEq

/-- One iteration of the `bboxFromAlpha` double loop at pixel (x, y). -/
def bboxStep (alpha : ℤ → ℤ → ℕ) (y : ℤ) (s : ScanSt) (x : ℤ) : ScanSt :=
  if 0 < alpha x y then ⟨min s.minX x, min s.minY y, max s.maxX x, max s.maxY y⟩ else s

/-- The inner loop of `bboxFromAlpha` over one row. -/
def bboxRow (alpha : ℤ → ℤ → ℕ) (w : ℕ) (y : ℤ) (s : ScanSt) : ScanSt :=
  (List.range w).foldl (fun t (x : ℕ) => bboxStep alpha y t (x : ℤ)) s

/-- The outer loop of `bboxFromAlpha` over all rows, started from
`minX = w, minY = h, maxX = -1, maxY = -1` as in the source. -/
def bboxScan (alpha : ℤ → ℤ → ℕ) (w h : ℕ) : ScanSt :=
  (List.range h).foldl (fun t (y : ℕ) => bboxRow alpha w (y : ℤ) t) ⟨(w : ℤ), (h : ℤ), -1, -1⟩

/-- Source: `bboxFromAlpha` (`inpaint.ts`): tight bounding box of all pixels
with alpha > 0, or `null` when there is none. -/
def bboxFromAlpha (alpha : ℤ → ℤ → ℕ) (w h : ℕ) : Option BBox :=
  let s := bboxScan alpha w h
  if s.maxX < s.minX ∨ s.maxY < s.minY then none
  else some ⟨s.minX, s.minY, s.maxX - s.minX + 1, s.maxY - s.minY + 1⟩

/-- The bbox computation of the edit route: `bboxFromAlpha`, then `padBBox`,
then — only when mask and image dimensions differ — `scaleBBoxTo` with
`sx = W/w`, `sy = H/h` (`edit.ts`). -/
def bboxPipeline (alpha : ℤ → ℤ → ℕ) (w h : ℕ) (pad : ℤ) (W H : ℕ) : Option BBox :=
  (bboxFromAlpha alpha w h).map fun b0 =>
    if w = W ∧ h = H then padBBox b0 w h pad
    else scaleBBoxTo (padBBox b0 w h pad) ((W : ℚ) / (w : ℚ)) ((H : ℚ) / (h : ℚ)) W H

/-- Unnormalized binomial weight of offset d for radius r; the weight of the
modelled discrete Gaussian is this over 4^r. -/
def binWnum (r : ℕ) (d : ℤ) : ℕ :=
  if d.natAbs ≤ r then Nat.choose (2 * r) ((r : ℤ) + d).toNat else 0

/-- Model of the library Gaussian blur of a byte raster of size w x h:
separable normalized binomial convolution of radius r with clamp-to-edge
boundary handling.  This is the numerator; the exact blurred value is
`blurNum / 16^r`. -/
def blurNum (r : ℕ) (w h : ℤ) (A : ℤ → ℤ → ℕ) (x y : ℤ) : ℕ :=
  Finset.sum (Finset.Icc (-(r : ℤ)) (r : ℤ)) fun dx =>
    Finset.sum (Finset.Icc (-(r : ℤ)) (r : ℤ)) fun dy =>
      binWnum r dx * binWnum r dy * A (clamp (x + dx) 0 (w - 1)) (clamp (y + dy) 0 (h - 1))

/-- Blur of a byte raster materialized back to bytes (`raw().toBuffer()`):
round-to-nearest of `blurNum / 16^r`, i.e. floor(n/D + 1/2) = (2n + D)/(2D)
in integer division. -/
def blurByte (r : ℕ) (w h : ℤ) (A : ℤ → ℤ → ℕ) (x y : ℤ) : ℕ :=
  (2 * blurNum r w h A x y + 16 ^ r) / (2 * 16 ^ r)

/-- Source: `inflateAlpha1ch` (recolor/inpaint service): soft dilation of a
1-channel alpha by `px`, blur then binarize at 128; identity when `px <= 0`. -/
def inflateAlpha1ch (A : ℤ → ℤ → ℕ) (w h : ℕ) (px : ℕ) : ℤ → ℤ → ℕ :=
  if px = 0 then A
  else fun x y => if 128 ≤ blurByte px (w : ℤ) (h : ℤ) A x y then 255 else 0

/-- Decoded mask image as seen by `computeEditAlpha` after the external
decoder: dimensions, alpha-channel presence flag, the raw alpha channel
(after `ensureAlpha().extractChannel`), and the grayscale `b-w` raster. -/
structure MaskImage where
  w : ℕ
  h : ℕ
  hasAlpha : Bool
  alphaCh : ℤ → ℤ → ℕ
  gray : ℤ → ℤ → ℕ

/-- Source: `buffer.some(v => v > 0)` over the w x h raster. -/
def anyPos (A : ℤ → ℤ → ℕ) (w h : ℕ) : Bool :=
  (List.range h).any fun y => (List.range w).any fun x => decide (0 < A (x : ℤ) (y : ℤ))

/-- Source: `computeEditAlpha` (`inpaint.ts`): if the mask has an alpha
channel and the inverted alpha (255 - a) has a nonzero pixel, return the
inverted alpha; otherwise threshold the grayscale at > 200. -/
def computeEditAlpha (m : MaskImage) : ℤ → ℤ → ℕ :=
  if m.hasAlpha && anyPos (fun x y => 255 - m.alphaCh x y) m.w m.h then
    fun x y => 255 - m.alphaCh x y
  else
    fun x y => if 200 < m.gray x y then 255 else 0

/-- Source-over alpha blend of one byte channel: round-to-nearest of
`(e * a + o * (255 - a)) / 255`, clamped to a byte. -/
def compositeByte (e o a : ℕ) : ℕ :=
  min 255 ((2 * (e * a + o * (255 - a)) + 255) / (2 * 255))

/-- Source: `strictComposite` (`inpaint.ts`): crop the alpha at the bbox,
feather it (blur radius `feather` when positive), and source-over composite
the (resized, 3-channel) edited patch onto the original inside the bbox:
out = (patch * a + orig * (255 - a)) / 255.  The `edited` argument stands
for the model patch after the `fit: fill` resize to the bbox dimensions;
the defensive channel-renormalization step 2.5 is the identity here because
the modelled blur is single-channel. -/
def strictComposite (orig : ℤ → ℤ → ℕ → ℕ) (imgW imgH : ℕ) (edited : ℤ → ℤ → ℕ → ℕ)
    (fullAlpha : ℤ → ℤ → ℕ) (bbox : BBox) (feather : ℕ) : ℤ → ℤ → ℕ → ℕ :=
  let alphaCrop : ℤ → ℤ → ℕ := fun cx cy => fullAlpha (bbox.left + cx) (bbox.top + cy)
  let blurred : ℤ → ℤ → ℕ :=
    if 0 < feather then blurByte feather bbox.width bbox.height alphaCrop else alphaCrop
  fun X Y c =>
    if bbox.left ≤ X ∧ X < bbox.left + bbox.width ∧ bbox.top ≤ Y ∧ Y < bbox.top + bbox.height then
      compositeByte (edited (X - bbox.left) (Y - bbox.top) c) (orig X Y c)
        (blurred (X - bbox.left) (Y - bbox.top))
    else orig X Y c

/-- Modelled from the spec: the resampling of the alpha raster to the image
dimensions (external `sharp` resize with `fit: fill`, section 4.2 of the
spec) is library behaviour outside the repository source; modelled as
stretch-to-fill nearest-neighbour resampling.  The `src = dst` shortcut is
the source shortcut of `resizeAlphaTo`. -/
def resizeAlphaTo (A : ℤ → ℤ → ℕ) (srcW srcH dstW dstH : ℕ) : ℤ → ℤ → ℕ :=
  if srcW = dstW ∧ srcH = dstH then A
  else fun x y =>
    A (Int.floor (((x : ℚ) * (srcW : ℚ)) / (dstW : ℚ))) (Int.floor (((y : ℚ) * (srcH : ℚ)) / (dstH : ℚ)))

/-- The alignment branch of the edit route: keep the alpha untouched when
mask and image dimensions agree, otherwise resample it (`edit.ts`). -/
def alignedAlpha (A : ℤ → ℤ → ℕ) (mW mH imgW imgH : ℕ) : ℤ → ℤ → ℕ :=
  if mW = imgW ∧ mH = imgH then A else resizeAlphaTo A mW mH imgW imgH

/-- The alpha raster the edit route passes to `strictComposite`: decoder
output, soft-dilated by 1 px, then aligned to image space (`edit.ts`). -/
def editAlphaImageSpace (m : MaskImage) (imgW imgH : ℕ) : ℤ → ℤ → ℕ :=
  alignedAlpha (inflateAlpha1ch (computeEditAlpha m) m.w m.h 1) m.w m.h imgW imgH

/-- Outcome of one edit request: the error response (tag, stage, HTTP
status) when the handler fails, the number of `saveToEdits` filesystem
writes performed, and the composited output raster (zero raster on error). -/
structure EditResult where
  error : Option (String × String × ℕ)
  writes : ℕ
  out : ℤ → ℤ → ℕ → ℕ

/-- The deterministic core of the `/api/edit` handler (`edit.ts`), from mask
decoding onward: decode the mask (its zero-dimension failure), soft-dilate
the alpha, take the bbox (`empty_mask` rejection), check the image metadata,
pad the bbox, align alpha and bbox to image space, composite, and save only
on success when `save` is set.  `orig` is the stored base image, `edited`
the patch returned by the model adapter. -/
def editHandler (orig : ℤ → ℤ → ℕ → ℕ) (imgW imgH : ℕ) (m : MaskImage)
    (edited : ℤ → ℤ → ℕ → ℕ) (feather padding : ℕ) (save : Bool) : EditResult :=
  if m.w = 0 ∨ m.h = 0 then ⟨some ("mask_meta_failed", "mask_to_bbox", 400), 0, fun _ _ _ => 0⟩
  else
    let fullAlpha := inflateAlpha1ch (computeEditAlpha m) m.w m.h 1
    match bboxFromAlpha fullAlpha m.w m.h with
    | none => ⟨some ("empty_mask", "mask_to_bbox", 400), 0, fun _ _ _ => 0⟩
    | some b0 =>
      if imgW = 0 ∨ imgH = 0 then ⟨some ("image_meta_failed", "mask_to_bbox", 400), 0, fun _ _ _ => 0⟩
      else
        let bboxMaskSpace := padBBox b0 m.w m.h (padding : ℤ)
        let bbox := if m.w = imgW ∧ m.h = imgH then bboxMaskSpace
          else scaleBBoxTo bboxMaskSpace ((imgW : ℚ) / (m.w : ℚ)) ((imgH : ℚ) / (m.h : ℚ)) imgW imgH
        ⟨none, if save then 1 else 0,
          strictComposite orig imgW imgH edited (editAlphaImageSpace m imgW imgH) bbox feather⟩

/-- Source: the per-channel gain of `colorMatchTo` (color matcher):
`Math.max(0.6, Math.min(1.6, (t + 1e-3) / (s + 1e-3)))`. -/
def colorGain (t s : ℚ) : ℚ := max (6/10) (min (16/10) ((t + 1/1000) / (s + 1/1000)))

/-- Source: the scaling computation of `makePatchDataUrlScaled`
(`inpaint.ts`): `scale = min(1, maxPx / max(w, h))`; when `scale < 1` the
patch is resized to (round(w * scale), round(h * scale)) with `fit: inside`,
else kept at natural size.  Modelled as the output dimensions. -/
def makePatchScaledDims (w h maxPx : ℕ) : ℕ × ℕ :=
  if min 1 ((maxPx : ℚ) / ((max w h : ℕ) : ℚ)) < 1 then
    ((jsRound ((w : ℚ) * min 1 ((maxPx : ℚ) / ((max w h : ℕ) : ℚ)))).toNat,
      (jsRound ((h : ℚ) * min 1 ((maxPx : ℚ) / ((max w h : ℕ) : ℚ)))).toNat)
  else (w, h)

/-- ASCII lowercasing of one character, the case folding JS regex `/i`
performs on ASCII patterns. -/
def lowerA (c : Char) : Char :=
  if 'A' ≤ c ∧ c ≤ 'Z' then Char.ofNat (c.toNat + 32) else c

/-- Character-list prefix test. -/
def isPre : List Char → List Char → Bool
  | [], _ => true
  | _ :: _, [] => false
  | a :: as, b :: bs => a == b && isPre as bs

/-- Substring search: does the haystack contain the needle? -/
def hasSub (needle : List Char) : List Char → Bool
  | [] => needle.isEmpty
  | c :: rest => isPre needle (c :: rest) || hasSub needle rest

/-- Case-insensitive substring test (an un-anchored JS regex literal with
the `i` flag). -/
def ciContains (hay pat : String) : Bool := hasSub (pat.data.map lowerA) (hay.data.map lowerA)

/-- Case-sensitive substring test (an un-anchored JS regex literal without
flags). -/
def csContains (hay pat : String) : Bool := hasSub pat.data hay.data

/-- The class `[a-f0-9-]` under the `/i` flag: also uppercase A-F. -/
def classCharCI (c : Char) : Bool :=
  ('a' ≤ c && c ≤ 'f') || ('A' ≤ c && c ≤ 'F') || ('0' ≤ c && c ≤ '9') || c == '-'

/-- Extension alternation `(png|jpg|jpeg|webp)` under the `/i` flag. -/
def extCI (ext : List Char) : Bool :=
  let l := ext.map lowerA
  l == "png".data || l == "jpg".data || l == "jpeg".data || l == "webp".data

/-- The class `[a-f0-9-]` read case-sensitively. -/
def classCharSpec (c : Char) : Bool :=
  ('a' ≤ c && c ≤ 'f') || ('0' ≤ c && c ≤ '9') || c == '-'

/-- Extension alternation `(png|jpg|jpeg|webp)` read case-sensitively. -/
def extSpec (ext : List Char) : Bool :=
  ext == "png".data || ext == "jpg".data || ext == "jpeg".data || ext == "webp".data

/-- Anchored match of `^cls+\.(ext)$` over a character list: since the class
excludes the dot, a match splits the string at its first dot. -/
def fnMatch (cls : Char → Bool) (extOK : List Char → Bool) (cs : List Char) : Bool :=
  match cs.dropWhile (fun c => c != '.') with
  | [] => false
  | d :: ext =>
    d == '.' && !(cs.takeWhile (fun c => c != '.')).isEmpty
      && (cs.takeWhile (fun c => c != '.')).all cls && extOK ext

/-- Source: `isSafeFileName` (`image-io.ts`):
test of `/^[a-f0-9-]+\.(png|jpg|jpeg|webp)$/i` — note the `i` flag. -/
def isSafeFileName (name : String) : Bool := fnMatch classCharCI extCI name.data

/-- Modelled from the spec: the claim reads the filename pattern
`^[a-f0-9-]+\.(png|jpg|jpeg|webp)$` case-sensitively (a JS regex without
flags); this matcher follows that reading, for comparison with the
source's `isSafeFileName`. -/
def specFileNameMatch (name : String) : Bool := fnMatch classCharSpec extSpec name.data

/-- Source: `readImageByName` (`image-io.ts`): reject unsafe names with
`bad_file_name`, then try the `generated` and `edits` directories in order,
failing with `file_not_found`.  Directories are modelled as partial maps
from filename to file content. -/
def readImageByName (gen edits : String → Option String) (name : String) : Except String String :=
  if isSafeFileName name then
    match gen name with
    | some buf => Except.ok buf
    | none =>
      match edits name with
      | some buf => Except.ok buf
      | none => Except.error "file_not_found"
  else Except.error "bad_file_name"

/-- Source: the catch block of the `/api/edit` handler (`edit.ts`): messages
matching `/openrouter_http_401|unauthorized|invalid/i` map to
`invalid_openrouter_api_key` with status 401; otherwise messages matching
the (case-sensitive) 400-class pattern keep their tag with status 400;
everything else is a 500. -/
def editCatch (msg stage : String) : String × String × ℕ :=
  if ciContains msg "openrouter_http_401" || ciContains msg "unauthorized"
      || ciContains msg "invalid" then
    ("invalid_openrouter_api_key", stage, 401)
  else if csContains msg "file_not_found" || csContains msg "bad_file_name"
      || csContains msg "mask_meta_failed" || csContains msg "image_meta_failed"
      || csContains msg "empty_mask" || csContains msg "malformed_data_url" then
    (msg, stage, 400)
  else (msg, stage, 500)

/-- Concrete 8 x 8 base image, constant value 100 on every channel. -/
def origC1 : ℤ → ℤ → ℕ → ℕ := fun _ _ _ => 100

/-- Concrete model patch, constant value 200 on every channel. -/
def editedC1 : ℤ → ℤ → ℕ → ℕ := fun _ _ _ => 200

/-- Concrete 8 x 8 RGBA mask: transparent (alpha 0, hence "edit") on the
2 x 2 block with 2 <= x, y <= 3, opaque elsewhere. -/
def maskC1 : MaskImage :=
  ⟨8, 8, true, fun x y => if 2 ≤ x ∧ x ≤ 3 ∧ 2 ≤ y ∧ y ≤ 3 then 0 else 255, fun _ _ => 0⟩

/-- Concrete 2 x 2 all-black grayscale mask without alpha: decodes to the
all-zero edit alpha. -/
def maskC4 : MaskImage := ⟨2, 2, false, fun _ _ => 0, fun _ _ => 0⟩

/-- Concrete 2 x 2 RGBA mask of constant alpha 55: the decoder returns the
constant inverted alpha 200. -/
def maskC8 : MaskImage := ⟨2, 2, true, fun _ _ => 55, fun _ _ => 0⟩

/-- Concrete 2 x 2 RGBA mask of constant alpha 10. -/
def maskC2 : MaskImage := ⟨2, 2, true, fun _ _ => 10, fun _ _ => 0⟩

/-- Concrete 2 x 2 alpha raster with a single nonzero pixel at (1, 0). -/
def alphaC3 : ℤ → ℤ → ℕ := fun x y => if x = 1 ∧ y = 0 then 255 else 0

/-- Concrete bounding box used by the padding monotonicity witness. -/
def bC5 : BBox := ⟨2, 2, 3, 3⟩

/-- Empty storage directory. -/
def storeEmpty : String → Option String := fun _ => none

lemma clamp_le_hi (n lo hi : ℤ) : clamp n lo hi ≤ hi := min_le_right _ _

lemma le_clamp (n lo hi : ℤ) (h : lo ≤ hi) : lo ≤ clamp n lo hi :=
  le_min (le_max_right _ _) h

lemma clamp_mono {a b : ℤ} (lo hi : ℤ) (h : a ≤ b) : clamp a lo hi ≤ clamp b lo hi :=
  min_le_min (max_le_max h le_rfl) le_rfl

lemma abs_clamp_sub (x d lo hi : ℤ) (h1 : lo ≤ x) (h2 : x ≤ hi) :
    |clamp (x + d) lo hi - x| ≤ |d| := by
  rcases abs_cases (clamp (x + d) lo hi - x) with ⟨he, _⟩ | ⟨he, _⟩ <;>
    rcases abs_cases d with ⟨hd, _⟩ | ⟨hd, _⟩ <;>
      rw [he, hd] <;> unfold clamp at * <;> omega

lemma jsRound_mono {a b : ℚ} (h : a ≤ b) : jsRound a ≤ jsRound b :=
  Int.floor_le_floor (by linarith)

lemma jsRound_intCast (n : ℤ) : jsRound (n : ℚ) = n := by
  unfold jsRound
  rw [add_comm, Int.floor_add_int]
  norm_num

/-- Invariant of the `bboxFromAlpha` scan state: either nothing has been
seen yet (the initial state), or the mins/maxes describe a nonempty region
inside the raster. -/
def ScanInv (w h : ℕ) (s : ScanSt) : Prop :=
  (s.minX = (w : ℤ) ∧ s.minY = (h : ℤ) ∧ s.maxX = -1 ∧ s.maxY = -1) ∨
    (0 ≤ s.minX ∧ s.minX ≤ s.maxX ∧ s.maxX ≤ (w : ℤ) - 1 ∧
     0 ≤ s.minY ∧ s.minY ≤ s.maxY ∧ s.maxY ≤ (h : ℤ) - 1)

lemma bboxStep_inv {alpha : ℤ → ℤ → ℕ} {w h : ℕ} {s : ScanSt} {x y : ℤ}
    (hx0 : 0 ≤ x) (hxw : x ≤ (w : ℤ) - 1) (hy0 : 0 ≤ y) (hyh : y ≤ (h : ℤ) - 1)
    (hs : ScanInv w h s) : ScanInv w h (bboxStep alpha y s x) := by
  unfold bboxStep
  split
  · right
    rcases hs with ⟨e1, e2, e3, e4⟩ | ⟨a1, a2, a3, a4, a5, a6⟩ <;> dsimp <;> omega
  · exact hs

lemma bboxFoldRow_inv {alpha : ℤ → ℤ → ℕ} {w h : ℕ} {y : ℤ}
    (hy0 : 0 ≤ y) (hyh : y ≤ (h : ℤ) - 1) :
    ∀ (l : List ℕ), (∀ a ∈ l, a < w) → ∀ {s : ScanSt}, ScanInv w h s →
      ScanInv w h (l.foldl (fun t (x : ℕ) => bboxStep alpha y t (x : ℤ)) s) := by
  intro l
  induction l with
  | nil => intro _ s hs; simpa using hs
  | cons a as ih =>
    intro hl s hs
    simp only [List.foldl_cons]
    refine ih (fun b hb => hl b (List.mem_cons_of_mem _ hb)) ?_
    refine bboxStep_inv (Int.ofNat_nonneg a) ?_ hy0 hyh hs
    have := hl a (List.mem_cons_self a as)
    omega

lemma bboxScan_inv (alpha : ℤ → ℤ → ℕ) (w h : ℕ) : ScanInv w h (bboxScan alpha w h) := by
  unfold bboxScan
  have main : ∀ (l : List ℕ), (∀ a ∈ l, a < h) → ∀ {s : ScanSt}, ScanInv w h s →
      ScanInv w h (l.foldl (fun t (y : ℕ) => bboxRow alpha w (y : ℤ) t) s) := by
    intro l
    induction l with
    | nil => intro _ s hs; simpa using hs
    | cons a as ih =>
      intro hl s hs
      simp only [List.foldl_cons]
      refine ih (fun b hb => hl b (List.mem_cons_of_mem _ hb)) ?_
      unfold bboxRow
      refine bboxFoldRow_inv (Int.ofNat_nonneg a) ?_ (List.range w)
        (fun b hb => List.mem_range.mp hb) hs
      have := hl a (List.mem_cons_self a as)
      omega
  exact main (List.range h) (fun a ha => List.mem_range.mp ha) (Or.inl ⟨rfl, rfl, rfl, rfl⟩)

lemma bboxStep_maxX_le (alpha : ℤ → ℤ → ℕ) (y : ℤ) (s : ScanSt) (x : ℤ) :
    s.maxX ≤ (bboxStep alpha y s x).maxX := by
  unfold bboxStep
  split
  · exact le_max_left _ _
  · exact le_rfl

lemma bboxFoldRow_maxX_le (alpha : ℤ → ℤ → ℕ) (y : ℤ) (l : List ℕ) :
    ∀ s : ScanSt, s.maxX ≤ (l.foldl (fun t (x : ℕ) => bboxStep alpha y t (x : ℤ)) s).maxX := by
  induction l with
  | nil => intro s; exact le_rfl
  | cons a as ih =>
    intro s
    simp only [List.foldl_cons]
    exact le_trans (bboxStep_maxX_le alpha y s (a : ℤ)) (ih _)

lemma bboxFoldRow_hit (alpha : ℤ → ℤ → ℕ) (y : ℤ) {l : List ℕ} {x : ℕ}
    (hx : x ∈ l) (hpos : 0 < alpha (x : ℤ) y) :
    ∀ s : ScanSt, 0 ≤ (l.foldl (fun t (x : ℕ) => bboxStep alpha y t (x : ℤ)) s).maxX := by
  induction l with
  | nil => cases hx
  | cons a as ih =>
    intro s
    simp only [List.foldl_cons]
    rcases List.mem_cons.mp hx with rfl | hmem
    · refine le_trans ?_ (bboxFoldRow_maxX_le alpha y as _)
      unfold bboxStep
      rw [if_pos hpos]
      exact le_trans (Int.ofNat_nonneg x) (le_max_right _ _)
    · exact ih hmem _

lemma bboxRowsFold_maxX_le (alpha : ℤ → ℤ → ℕ) (w : ℕ) (l : List ℕ) :
    ∀ s : ScanSt, s.maxX ≤ (l.foldl (fun t (y : ℕ) => bboxRow alpha w (y : ℤ) t) s).maxX := by
  induction l with
  | nil => intro s; exact le_rfl
  | cons a as ih =>
    intro s
    simp only [List.foldl_cons]
    exact le_trans (bboxFoldRow_maxX_le alpha (a : ℤ) (List.range w) s) (ih _)

lemma bboxScan_hit {alpha : ℤ → ℤ → ℕ} {w h : ℕ} {x y : ℕ}
    (hx : x < w) (hy : y < h) (hpos : 0 < alpha (x : ℤ) (y : ℤ)) :
    0 ≤ (bboxScan alpha w h).maxX := by
  unfold bboxScan
  have main : ∀ (l : List ℕ), y ∈ l → ∀ s : ScanSt,
      0 ≤ (l.foldl (fun t (yy : ℕ) => bboxRow alpha w (yy : ℤ) t) s).maxX := by
    intro l
    induction l with
    | nil => intro h0; cases h0
    | cons a as ih =>
      intro hmem s
      simp only [List.foldl_cons]
      rcases List.mem_cons.mp hmem with rfl | hmem2
      · refine le_trans ?_ (bboxRowsFold_maxX_le alpha w as _)
        unfold bboxRow
        exact bboxFoldRow_hit alpha (y : ℤ) (List.mem_range.mpr hx) hpos s
      · exact ih hmem2 _
  exact main (List.range h) (List.mem_range.mpr hy) _

lemma bboxFromAlpha_eq_some {alpha : ℤ → ℤ → ℕ} {w h : ℕ}
    (hne : ∃ x y : ℕ, x < w ∧ y < h ∧ 0 < alpha (x : ℤ) (y : ℤ)) :
    ∃ b, bboxFromAlpha alpha w h = some b ∧ 0 ≤ b.left ∧ b.left + b.width ≤ (w : ℤ) ∧
      1 ≤ b.width ∧ 0 ≤ b.top ∧ b.top + b.height ≤ (h : ℤ) ∧ 1 ≤ b.height := by
  obtain ⟨x, y, hx, hy, hpos⟩ := hne
  have hinv := bboxScan_inv alpha w h
  have hhit := bboxScan_hit hx hy hpos
  rcases hinv with ⟨_, _, e3, _⟩ | ⟨a1, a2, a3, a4, a5, a6⟩
  · omega
  · have hcond : ¬((bboxScan alpha w h).maxX < (bboxScan alpha w h).minX ∨
        (bboxScan alpha w h).maxY < (bboxScan alpha w h).minY) := by omega
    refine ⟨⟨(bboxScan alpha w h).minX, (bboxScan alpha w h).minY,
      (bboxScan alpha w h).maxX - (bboxScan alpha w h).minX + 1,
      (bboxScan alpha w h).maxY - (bboxScan alpha w h).minY + 1⟩, ?_, ?_, ?_, ?_, ?_, ?_, ?_⟩
    · unfold bboxFromAlpha
      rw [if_neg hcond]
    all_goals dsimp
    all_goals omega

lemma bboxFromAlpha_valid {alpha : ℤ → ℤ → ℕ} {w h : ℕ} {b : BBox}
    (hb : bboxFromAlpha alpha w h = some b) :
    0 ≤ b.left ∧ b.left + b.width ≤ (w : ℤ) ∧ 1 ≤ b.width ∧
      0 ≤ b.top ∧ b.top + b.height ≤ (h : ℤ) ∧ 1 ≤ b.height := by
  have hinv := bboxScan_inv alpha w h
  unfold bboxFromAlpha at hb
  rcases hinv with ⟨e1, e2, e3, e4⟩ | ⟨a1, a2, a3, a4, a5, a6⟩
  · rw [if_pos (by omega)] at hb
    cases hb
  · rw [if_neg (by omega)] at hb
    cases hb
    dsimp
    omega

lemma padBBox_valid {b : BBox} {w h : ℕ} {pad : ℤ} (hw : 1 ≤ w) (hh : 1 ≤ h)
    (hp : 0 ≤ pad) (hbw : 1 ≤ b.width) (hbh : 1 ≤ b.height) :
    0 ≤ (padBBox b w h pad).left ∧
      (padBBox b w h pad).left + (padBBox b w h pad).width ≤ (w : ℤ) ∧
      1 ≤ (padBBox b w h pad).width ∧ 0 ≤ (padBBox b w h pad).top ∧
      (padBBox b w h pad).top + (padBBox b w h pad).height ≤ (h : ℤ) ∧
      1 ≤ (padBBox b w h pad).height := by
  unfold padBBox clamp
  dsimp
  omega

lemma scaleBBoxTo_valid {b : BBox} {sx sy : ℚ} {dstW dstH : ℕ}
    (hW : 1 ≤ dstW) (hH : 1 ≤ dstH) (hsx : 0 ≤ sx) (hsy : 0 ≤ sy)
    (hbw : 1 ≤ b.width) (hbh : 1 ≤ b.height) :
    0 ≤ (scaleBBoxTo b sx sy dstW dstH).left ∧
      (scaleBBoxTo b sx sy dstW dstH).left + (scaleBBoxTo b sx sy dstW dstH).width ≤ (dstW : ℤ) ∧
      1 ≤ (scaleBBoxTo b sx sy dstW dstH).width ∧ 0 ≤ (scaleBBoxTo b sx sy dstW dstH).top ∧
      (scaleBBoxTo b sx sy dstW dstH).top + (scaleBBoxTo b sx sy dstW dstH).height ≤ (dstH : ℤ) ∧
      1 ≤ (scaleBBoxTo b sx sy dstW dstH).height := by
  have hxm : jsRound ((b.left : ℚ) * sx) ≤ jsRound (((b.left + b.width - 1 : ℤ) : ℚ) * sx) := by
    refine jsRound_mono (mul_le_mul_of_nonneg_right ?_ hsx)
    exact_mod_cast (show b.left ≤ b.left + b.width - 1 by omega)
  have hym : jsRound ((b.top : ℚ) * sy) ≤ jsRound (((b.top + b.height - 1 : ℤ) : ℚ) * sy) := by
    refine jsRound_mono (mul_le_mul_of_nonneg_right ?_ hsy)
    exact_mod_cast (show b.top ≤ b.top + b.height - 1 by omega)
  unfold scaleBBoxTo clamp
  dsimp
  omega

lemma jsRound_natCast (n : ℕ) : jsRound ((n : ℕ) : ℚ) = (n : ℤ) := by
  have h := jsRound_intCast (n : ℤ)
  rwa [Int.cast_natCast] at h

lemma blurNum_eq_zero {r : ℕ} {w h : ℤ} {A : ℤ → ℤ → ℕ} {x y : ℤ}
    (hx0 : 0 ≤ x) (hxw : x ≤ w - 1) (hy0 : 0 ≤ y) (hyh : y ≤ h - 1)
    (hz : ∀ u v : ℤ, |u - x| ≤ (r : ℤ) → |v - y| ≤ (r : ℤ) →
      0 ≤ u → u ≤ w - 1 → 0 ≤ v → v ≤ h - 1 → A u v = 0) :
    blurNum r w h A x y = 0 := by
  unfold blurNum
  refine Finset.sum_eq_zero fun dx hdx => Finset.sum_eq_zero fun dy hdy => ?_
  have hdx2 := Finset.mem_Icc.mp hdx
  have hdy2 := Finset.mem_Icc.mp hdy
  have h1 : |clamp (x + dx) 0 (w - 1) - x| ≤ (r : ℤ) :=
    le_trans (abs_clamp_sub x dx 0 (w - 1) hx0 hxw) (abs_le.mpr ⟨hdx2.1, hdx2.2⟩)
  have h2 : |clamp (y + dy) 0 (h - 1) - y| ≤ (r : ℤ) :=
    le_trans (abs_clamp_sub y dy 0 (h - 1) hy0 hyh) (abs_le.mpr ⟨hdy2.1, hdy2.2⟩)
  rw [hz _ _ h1 h2 (le_clamp _ _ _ (by omega)) (clamp_le_hi _ _ _)
    (le_clamp _ _ _ (by omega)) (clamp_le_hi _ _ _), Nat.mul_zero]

lemma blurByte_eq_zero {r : ℕ} {w h : ℤ} {A : ℤ → ℤ → ℕ} {x y : ℤ}
    (hx0 : 0 ≤ x) (hxw : x ≤ w - 1) (hy0 : 0 ≤ y) (hyh : y ≤ h - 1)
    (hz : ∀ u v : ℤ, |u - x| ≤ (r : ℤ) → |v - y| ≤ (r : ℤ) →
      0 ≤ u → u ≤ w - 1 → 0 ≤ v → v ≤ h - 1 → A u v = 0) :
    blurByte r w h A x y = 0 := by
  unfold blurByte
  rw [blurNum_eq_zero hx0 hxw hy0 hyh hz]
  have h16 : 0 < 16 ^ r := pow_pos (by norm_num) r
  exact Nat.div_eq_of_lt (by omega)

lemma inflateAlpha1ch_zero {A : ℤ → ℤ → ℕ} {w h px : ℕ} {x y : ℤ}
    (hx0 : 0 ≤ x) (hxw : x ≤ (w : ℤ) - 1) (hy0 : 0 ≤ y) (hyh : y ≤ (h : ℤ) - 1)
    (hz : ∀ u v : ℤ, |u - x| ≤ (px : ℤ) → |v - y| ≤ (px : ℤ) →
      0 ≤ u → u ≤ (w : ℤ) - 1 → 0 ≤ v → v ≤ (h : ℤ) - 1 → A u v = 0) :
    inflateAlpha1ch A w h px x y = 0 := by
  unfold inflateAlpha1ch
  split
  · next hpx =>
    subst hpx
    exact hz x y (by simp) (by simp) hx0 hxw hy0 hyh
  · show (if 128 ≤ blurByte px (w : ℤ) (h : ℤ) A x y then 255 else 0) = 0
    rw [blurByte_eq_zero hx0 hxw hy0 hyh hz]
    norm_num

lemma compositeByte_zero_alpha {e o : ℕ} (ho : o ≤ 255) : compositeByte e o 0 = o := by
  unfold compositeByte
  simp only [Nat.mul_zero, Nat.sub_zero, Nat.zero_add]
  omega

lemma anyPos_iff {A : ℤ → ℤ → ℕ} {w h : ℕ} :
    anyPos A w h = true ↔ ∃ x y : ℕ, x < w ∧ y < h ∧ 0 < A (x : ℤ) (y : ℤ) := by
  unfold anyPos
  rw [List.any_eq_true]
  constructor
  · rintro ⟨y, hy, hrow⟩
    rw [List.any_eq_true] at hrow
    obtain ⟨x, hx, hpos⟩ := hrow
    exact ⟨x, y, List.mem_range.mp hx, List.mem_range.mp hy, of_decide_eq_true hpos⟩
  · rintro ⟨x, y, hx, hy, hpos⟩
    exact ⟨y, List.mem_range.mpr hy,
      List.any_eq_true.mpr ⟨x, List.mem_range.mpr hx, decide_eq_true hpos⟩⟩

/-- C2: Mask Decoder convention: for every decodable mask, if the mask has
an alpha channel and the pixel-wise inverted alpha (255 minus input alpha)
contains at least one non-zero value, `computeEditAlpha` returns exactly
that inverted alpha; otherwise it returns the thresholded luminance: 255
where the grayscale value exceeds 200 and 0 elsewhere. -/
theorem c2_mask_decoder_convention (m : MaskImage) :
    ((m.hasAlpha = true ∧ ∃ x y : ℕ, x < m.w ∧ y < m.h ∧ 0 < 255 - m.alphaCh (x : ℤ) (y : ℤ)) →
      ∀ x y : ℤ, computeEditAlpha m x y = 255 - m.alphaCh x y) ∧
    (¬(m.hasAlpha = true ∧ ∃ x y : ℕ, x < m.w ∧ y < m.h ∧ 0 < 255 - m.alphaCh (x : ℤ) (y : ℤ)) →
      ∀ x y : ℤ, computeEditAlpha m x y = if 200 < m.gray x y then 255 else 0) := by
  constructor
  · rintro ⟨hA, hex⟩ x y
    unfold computeEditAlpha
    rw [if_pos (by rw [Bool.and_eq_true]; exact ⟨hA, anyPos_iff.mpr hex⟩)]
  · intro hn x y
    unfold computeEditAlpha
    rw [if_neg (by rw [Bool.and_eq_true]; exact fun hc => hn ⟨hc.1, anyPos_iff.mp hc.2⟩)]

/-- C2 witness: a concrete RGBA mask of constant alpha 10 decodes to the
inverted alpha 245 at pixel (0,0). -/
theorem c2_witness : computeEditAlpha maskC2 0 0 = 245 := by
  have h := (c2_mask_decoder_convention maskC2).1
    ⟨rfl, 0, 0, by decide, by decide, by decide⟩ 0 0
  exact h.trans (by decide)

/-- C3: BBox validity: for every non-empty mask alpha, image dimensions
W, H at least 1, and non-negative padding (the request schema admits
0..128), the bbox produced by `bboxFromAlpha`, `padBBox` and — when mask
and image dimensions differ — `scaleBBoxTo` lies inside the image and has
positive extent. -/
theorem c3_bbox_validity (alpha : ℤ → ℤ → ℕ) (w h : ℕ) (pad : ℤ) (W H : ℕ)
    (hW : 1 ≤ W) (hH : 1 ≤ H) (hpad : 0 ≤ pad)
    (hne : ∃ x y : ℕ, x < w ∧ y < h ∧ 0 < alpha (x : ℤ) (y : ℤ)) :
    ∃ b, bboxPipeline alpha w h pad W H = some b ∧
      0 ≤ b.left ∧ b.left + b.width ≤ (W : ℤ) ∧ 1 ≤ b.width ∧
      0 ≤ b.top ∧ b.top + b.height ≤ (H : ℤ) ∧ 1 ≤ b.height := by
  obtain ⟨b0, hb0, v1, v2, v3, v4, v5, v6⟩ := bboxFromAlpha_eq_some hne
  obtain ⟨x, y, hx, hy, _⟩ := hne
  have hw : 1 ≤ w := by omega
  have hh : 1 ≤ h := by omega
  have hp := padBBox_valid (b := b0) (w := w) (h := h) hw hh hpad v3 v6
  unfold bboxPipeline
  rw [hb0]
  simp only [Option.map_some']
  by_cases hdim : w = W ∧ h = H
  · rw [if_pos hdim]
    obtain ⟨rfl, rfl⟩ := hdim
    exact ⟨padBBox b0 w h pad, rfl, hp⟩
  · rw [if_neg hdim]
    have hsx : (0 : ℚ) ≤ (W : ℚ) / (w : ℚ) := by positivity
    have hsy : (0 : ℚ) ≤ (H : ℚ) / (h : ℚ) := by positivity
    exact ⟨_, rfl, scaleBBoxTo_valid hW hH hsx hsy hp.2.2.1 hp.2.2.2.2.2⟩

/-- C3 witness: a 2 x 2 mask with a single nonzero pixel, padding 1, image
2 x 2. -/
theorem c3_witness : ∃ b, bboxPipeline alphaC3 2 2 1 2 2 = some b ∧ 1 ≤ b.width ∧ 1 ≤ b.height := by
  obtain ⟨b, hb, _, _, h3, _, _, h6⟩ := c3_bbox_validity alphaC3 2 2 1 2 2
    (by norm_num) (by norm_num) (by norm_num) ⟨1, 0, by norm_num, by norm_num, by decide⟩
  exact ⟨b, hb, h3, h6⟩

/-- C5: Padding monotonicity: with the same bbox and image dimensions, the
area of the padded bbox is monotone non-decreasing in the padding (the
request schema admits padding 0..128, and bboxes have positive extent). -/
theorem c5_padding_monotone (b : BBox) (w h : ℕ) (p1 p2 : ℤ)
    (hp1 : 0 ≤ p1) (hp12 : p1 ≤ p2) (hbw : 1 ≤ b.width) (hbh : 1 ≤ b.height) :
    bboxArea (padBBox b w h p1) ≤ bboxArea (padBBox b w h p2) := by
  have hw1 : (padBBox b w h p1).width ≤ (padBBox b w h p2).width := by
    unfold padBBox clamp
    dsimp
    omega
  have hh1 : (padBBox b w h p1).height ≤ (padBBox b w h p2).height := by
    unfold padBBox clamp
    dsimp
    omega
  have hpos1 : 0 ≤ (padBBox b w h p1).height := by
    unfold padBBox clamp
    dsimp
    omega
  have hpos2 : 0 ≤ (padBBox b w h p2).width := by
    unfold padBBox clamp
    dsimp
    omega
  unfold bboxArea
  exact mul_le_mul hw1 hh1 hpos1 hpos2

/-- C5 witness: concrete bbox, image 10 x 10, paddings 1 and 4. -/
theorem c5_witness : bboxArea (padBBox bC5 10 10 1) ≤ bboxArea (padBBox bC5 10 10 4) :=
  c5_padding_monotone bC5 10 10 1 4 (by norm_num) (by norm_num) (by decide) (by decide)

/-- C6: Color-gain clamp: for all non-negative mean RGB values, the
per-channel gain `max(0.6, min(1.6, (t + 1e-3)/(s + 1e-3)))` of the color
matcher lies in the closed interval [0.6, 1.6]. -/
theorem c6_color_gain_clamp (t s : ℚ) (ht : 0 ≤ t) (hs : 0 ≤ s) :
    6/10 ≤ colorGain t s ∧ colorGain t s ≤ 16/10 := by
  unfold colorGain
  exact ⟨le_max_left _ _, max_le (by norm_num) (le_trans (min_le_left _ _) (by norm_num))⟩

/-- C6 witness: the gain at zero means. -/
theorem c6_witness : 6/10 ≤ colorGain 0 0 ∧ colorGain 0 0 ≤ 16/10 :=
  c6_color_gain_clamp 0 0 le_rfl le_rfl

/-- C7: Patch size clamp without enlargement: the patch dimensions computed
by `makePatchDataUrlScaled` are both axes scaled by the single factor
`min(1, maxPx / max(w, h))` (then rounded), so the longest edge is at most
`maxPx`, neither axis exceeds its natural crop size, and the scaling is
uniform (no distortion). -/
theorem c7_patch_scale_clamp (w h maxPx : ℕ) (hw : 0 < w) (hh : 0 < h) (hM : 0 < maxPx) :
    ((makePatchScaledDims w h maxPx).1 : ℤ)
        = jsRound ((w : ℚ) * min 1 ((maxPx : ℚ) / ((max w h : ℕ) : ℚ))) ∧
      ((makePatchScaledDims w h maxPx).2 : ℤ)
        = jsRound ((h : ℚ) * min 1 ((maxPx : ℚ) / ((max w h : ℕ) : ℚ))) ∧
      (makePatchScaledDims w h maxPx).1 ≤ maxPx ∧ (makePatchScaledDims w h maxPx).2 ≤ maxPx ∧
      (makePatchScaledDims w h maxPx).1 ≤ w ∧ (makePatchScaledDims w h maxPx).2 ≤ h := by
  have hmx : (0 : ℚ) < ((max w h : ℕ) : ℚ) := by
    have hmx0 : 0 < max w h := lt_of_lt_of_le hw (le_max_left _ _)
    exact_mod_cast hmx0
  unfold makePatchScaledDims
  set s : ℚ := min 1 ((maxPx : ℚ) / ((max w h : ℕ) : ℚ)) with hsdef
  have hs0 : 0 ≤ s := le_min zero_le_one (div_nonneg (by positivity) (le_of_lt hmx))
  have hs1 : s ≤ 1 := min_le_left _ _
  have hws_le_w : (w : ℚ) * s ≤ (w : ℚ) := by
    calc (w : ℚ) * s ≤ (w : ℚ) * 1 := mul_le_mul_of_nonneg_left hs1 (by positivity)
    _ = (w : ℚ) := mul_one _
  have hhs_le_h : (h : ℚ) * s ≤ (h : ℚ) := by
    calc (h : ℚ) * s ≤ (h : ℚ) * 1 := mul_le_mul_of_nonneg_left hs1 (by positivity)
    _ = (h : ℚ) := mul_one _
  have hws_le_M : (w : ℚ) * s ≤ (maxPx : ℚ) := by
    calc (w : ℚ) * s ≤ ((max w h : ℕ) : ℚ) * s :=
      mul_le_mul_of_nonneg_right (by exact_mod_cast le_max_left w h) hs0
    _ ≤ ((max w h : ℕ) : ℚ) * ((maxPx : ℚ) / ((max w h : ℕ) : ℚ)) :=
      mul_le_mul_of_nonneg_left (min_le_right _ _) (le_of_lt hmx)
    _ = (maxPx : ℚ) := by field_simp
  have hhs_le_M : (h : ℚ) * s ≤ (maxPx : ℚ) := by
    calc (h : ℚ) * s ≤ ((max w h : ℕ) : ℚ) * s :=
      mul_le_mul_of_nonneg_right (by exact_mod_cast le_max_right w h) hs0
    _ ≤ ((max w h : ℕ) : ℚ) * ((maxPx : ℚ) / ((max w h : ℕ) : ℚ)) :=
      mul_le_mul_of_nonneg_left (min_le_right _ _) (le_of_lt hmx)
    _ = (maxPx : ℚ) := by field_simp
  have hwnn : 0 ≤ jsRound ((w : ℚ) * s) :=
    Int.le_floor.mpr (by push_cast; positivity)
  have hhnn : 0 ≤ jsRound ((h : ℚ) * s) :=
    Int.le_floor.mpr (by push_cast; positivity)
  split
  · next hlt =>
    refine ⟨?_, ?_, ?_, ?_, ?_, ?_⟩
    · exact Int.toNat_of_nonneg hwnn
    · exact Int.toNat_of_nonneg hhnn
    · exact Int.toNat_le.mpr (le_trans (jsRound_mono hws_le_M) (le_of_eq (jsRound_natCast maxPx)))
    · exact Int.toNat_le.mpr (le_trans (jsRound_mono hhs_le_M) (le_of_eq (jsRound_natCast maxPx)))
    · exact Int.toNat_le.mpr (le_trans (jsRound_mono hws_le_w) (le_of_eq (jsRound_natCast w)))
    · exact Int.toNat_le.mpr (le_trans (jsRound_mono hhs_le_h) (le_of_eq (jsRound_natCast h)))
  · next hge =>
    have hseq : s = 1 := le_antisymm hs1 (not_lt.mp hge)
    have hdiv : (1 : ℚ) ≤ (maxPx : ℚ) / ((max w h : ℕ) : ℚ) := by
      have := hsdef.symm.trans hseq
      exact min_eq_left_iff.mp (by rw [hsdef] at hseq; exact hseq)
    have hmle : max w h ≤ maxPx := by
      have h2 : ((max w h : ℕ) : ℚ) ≤ (maxPx : ℚ) := (one_le_div hmx).mp hdiv
      exact_mod_cast h2
    refine ⟨?_, ?_, ?_, ?_, le_rfl, le_rfl⟩
    · rw [hseq, mul_one, jsRound_natCast]
    · rw [hseq, mul_one, jsRound_natCast]
    · exact le_trans (le_max_left w h) hmle
    · exact le_trans (le_max_right w h) hmle

/-- C7 witness: a 4 x 2 crop with maximum edge 3 is scaled down within
both limits. -/
theorem c7_witness :
    (makePatchScaledDims 4 2 3).1 ≤ 3 ∧ (makePatchScaledDims 4 2 3).1 ≤ 4 :=
  ⟨(c7_patch_scale_clamp 4 2 3 (by norm_num) (by norm_num) (by norm_num)).2.2.1,
   (c7_patch_scale_clamp 4 2 3 (by norm_num) (by norm_num) (by norm_num)).2.2.2.2.1⟩

/-- C8 (amended): when the mask dimensions equal the base-image dimensions,
no resampling is applied: the alpha buffer passed to `strictComposite` is
exactly the soft-dilated (`inflateAlpha1ch`, 1 px) decoder alpha — not, in
general, the raw Mask Decoder output. -/
theorem c8_alpha_alignment (m : MaskImage) (imgW imgH : ℕ)
    (hdW : m.w = imgW) (hdH : m.h = imgH) (x y : ℤ) :
    editAlphaImageSpace m imgW imgH x y
      = inflateAlpha1ch (computeEditAlpha m) m.w m.h 1 x y := by
  unfold editAlphaImageSpace alignedAlpha
  rw [if_pos ⟨hdW, hdH⟩]

/-- C8 witness: a concrete 2 x 2 mask against a 2 x 2 image. -/
theorem c8_witness :
    editAlphaImageSpace maskC8 2 2 0 0 = inflateAlpha1ch (computeEditAlpha maskC8) 2 2 1 0 0 :=
  c8_alpha_alignment maskC8 2 2 rfl rfl 0 0

/-- C8 counterexample: for the constant-alpha-55 mask the decoder outputs
the constant alpha 200, but the soft dilation binarizes it to 255, so the
alpha passed to `strictComposite` differs from the Mask Decoder output even
though mask and image dimensions agree. -/
theorem c8_counterexample :
    editAlphaImageSpace maskC8 2 2 0 0 = 255 ∧ computeEditAlpha maskC8 0 0 = 200 ∧
      editAlphaImageSpace maskC8 2 2 0 0 ≠ computeEditAlpha maskC8 0 0 := by
  refine ⟨by decide, by decide, by decide⟩

lemma takeWhile_eq_of_append {p : Char → Bool} (l1 : List Char) (x : Char) (l2 : List Char)
    (h1 : ∀ c ∈ l1, p c = true) (hx : p x = false) :
    (l1 ++ x :: l2).takeWhile p = l1 := by
  induction l1 with
  | nil => simp [List.takeWhile_cons, hx]
  | cons a as ih =>
    have ha := h1 a (List.mem_cons_self a as)
    simp [List.takeWhile_cons, ha, ih (fun c hc => h1 c (List.mem_cons_of_mem _ hc))]

lemma dropWhile_eq_of_append {p : Char → Bool} (l1 : List Char) (x : Char) (l2 : List Char)
    (h1 : ∀ c ∈ l1, p c = true) (hx : p x = false) :
    (l1 ++ x :: l2).dropWhile p = x :: l2 := by
  induction l1 with
  | nil => simp [List.dropWhile_cons, hx]
  | cons a as ih =>
    have ha := h1 a (List.mem_cons_self a as)
    simp [List.dropWhile_cons, ha, ih (fun c hc => h1 c (List.mem_cons_of_mem _ hc))]

lemma classCharCI_ne_dot {c : Char} (h : classCharCI c = true) : (c != '.') = true := by
  rw [bne_iff_ne]
  intro he
  rw [he] at h
  exact absurd h (by decide)

/-- C9 (amended): `isSafeFileName` accepts exactly the names of the form
`stem.ext` where the stem is a nonempty run over `[a-f0-9-]` matched
case-insensitively (so uppercase A-F as well) and the extension is one of
png, jpg, jpeg, webp in any letter case — the JS pattern carries the `i`
flag; every rejected name makes `readImageByName` fail with
`bad_file_name`. -/
theorem c9_filename_validation (gen edits : String → Option String) (s : String) :
    (isSafeFileName s = true ↔ ∃ stem ext : List Char,
        s.data = stem ++ '.' :: ext ∧ stem ≠ [] ∧
        (∀ c ∈ stem, classCharCI c = true) ∧ extCI ext = true) ∧
    (isSafeFileName s = false →
      readImageByName gen edits s = Except.error "bad_file_name") := by
  constructor
  · constructor
    · intro hm
      unfold isSafeFileName fnMatch at hm
      cases hd : s.data.dropWhile (fun c => c != '.') with
      | nil => rw [hd] at hm; exact absurd hm (by simp)
      | cons d ext =>
        rw [hd] at hm
        simp only [Bool.and_eq_true, beq_iff_eq, Bool.not_eq_true', List.all_eq_true] at hm
        obtain ⟨⟨⟨hd2, hne⟩, hall⟩, hext⟩ := hm
        refine ⟨s.data.takeWhile (fun c => c != '.'), ext, ?_, ?_, hall, hext⟩
        · have hsplit := List.takeWhile_append_dropWhile (p := fun c => c != '.') (l := s.data)
          rw [hd, hd2] at hsplit
          exact hsplit.symm
        · intro hnil
          rw [hnil] at hne
          exact absurd hne (by decide)
    · rintro ⟨stem, ext, hsd, hne, hcls, hext⟩
      have hstem : ∀ c ∈ stem, (c != '.') = true := fun c hc => classCharCI_ne_dot (hcls c hc)
      have hdot : (('.' : Char) != '.') = false := by decide
      unfold isSafeFileName fnMatch
      rw [hsd, dropWhile_eq_of_append _ _ _ hstem hdot]
      simp only [takeWhile_eq_of_append _ _ _ hstem hdot]
      simp [hext, List.all_eq_true.mpr hcls, List.isEmpty_iff, hne]
  · intro hf
    unfold readImageByName
    simp [hf]

/-- C9 witness: a lowercase hex name decomposes per the pattern, and an
unsafe name is rejected with `bad_file_name`. -/
theorem c9_witness :
    (∃ stem ext : List Char, ("ab.png").data = stem ++ '.' :: ext ∧ stem ≠ [] ∧
        (∀ c ∈ stem, classCharCI c = true) ∧ extCI ext = true) ∧
      readImageByName storeEmpty storeEmpty "!!" = Except.error "bad_file_name" :=
  ⟨(c9_filename_validation storeEmpty storeEmpty "ab.png").1.mp (by decide),
   (c9_filename_validation storeEmpty storeEmpty "!!").2 (by decide)⟩

/-- C9 counterexample: `"AB.png"` is accepted by the source's test (the
regex carries the `i` flag) although it does not match the case-sensitive
reading `^[a-f0-9-]+\.(png|jpg|jpeg|webp)$` of the claim. -/
theorem c9_counterexample :
    isSafeFileName "AB.png" = true ∧ specFileNameMatch "AB.png" = false := by
  refine ⟨by decide, by decide⟩

/-- C10: the edit route's catch block maps every error message matching
`/openrouter_http_401|unauthorized|invalid/i` — in particular any message
containing the substring "invalid" in any letter case, and regardless of
the stage, request parsing included — to the response
`invalid_openrouter_api_key` with HTTP status 401, before the 400-class
pattern is consulted. -/
theorem c10_error_handler_401 (msg stage : String)
    (hmsg : ciContains msg "openrouter_http_401" = true ∨ ciContains msg "unauthorized" = true
      ∨ ciContains msg "invalid" = true) :
    editCatch msg stage = ("invalid_openrouter_api_key", stage, 401) := by
  unfold editCatch
  rcases hmsg with h | h | h <;> rw [if_pos (by simp [h])]

/-- C10 witness: a message that also matches the 400-class pattern and
contains "Invalid" in mixed case, raised at the parse stage, is still
mapped to the 401 authentication response. -/
theorem c10_witness :
    editCatch "empty_mask: Invalid prompt" "parse" = ("invalid_openrouter_api_key", "parse", 401) :=
  c10_error_handler_401 "empty_mask: Invalid prompt" "parse" (Or.inr (Or.inr (by decide)))

lemma strictComposite_eq_orig
    {orig : ℤ → ℤ → ℕ → ℕ} {imgW imgH : ℕ} {edited : ℤ → ℤ → ℕ → ℕ}
    {A : ℤ → ℤ → ℕ} {bbox : BBox} {feather : ℕ} {X Y : ℤ} {c : ℕ}
    (hbl : 0 ≤ bbox.left) (hbr : bbox.left + bbox.width ≤ (imgW : ℤ))
    (hbt : 0 ≤ bbox.top) (hbb : bbox.top + bbox.height ≤ (imgH : ℤ))
    (hbyte : orig X Y c ≤ 255)
    (hz : ∀ u v : ℤ, |u - X| ≤ (feather : ℤ) → |v - Y| ≤ (feather : ℤ) →
      0 ≤ u → u ≤ (imgW : ℤ) - 1 → 0 ≤ v → v ≤ (imgH : ℤ) - 1 → A u v = 0) :
    strictComposite orig imgW imgH edited A bbox feather X Y c = orig X Y c := by
  unfold strictComposite
  by_cases hin : bbox.left ≤ X ∧ X < bbox.left + bbox.width ∧
      bbox.top ≤ Y ∧ Y < bbox.top + bbox.height
  · rw [if_pos hin]
    obtain ⟨h1, h2, h3, h4⟩ := hin
    rcases Nat.eq_zero_or_pos feather with hf | hf
    · subst hf
      rw [if_neg (by omega : ¬(0 : ℕ) < 0)]
      rw [show bbox.left + (X - bbox.left) = X from by ring,
        show bbox.top + (Y - bbox.top) = Y from by ring]
      rw [hz X Y (by simp) (by simp) (by omega) (by omega) (by omega) (by omega)]
      exact compositeByte_zero_alpha hbyte
    · have hz2 : ∀ u v : ℤ, |u - (X - bbox.left)| ≤ (feather : ℤ) →
          |v - (Y - bbox.top)| ≤ (feather : ℤ) →
          0 ≤ u → u ≤ bbox.width - 1 → 0 ≤ v → v ≤ bbox.height - 1 →
          (fun cx cy => A (bbox.left + cx) (bbox.top + cy)) u v = 0 := by
        intro u v huu hvv hu0 huw hv0 hvh
        show A (bbox.left + u) (bbox.top + v) = 0
        refine hz (bbox.left + u) (bbox.top + v) ?_ ?_ (by omega) (by omega) (by omega) (by omega)
        · rw [show bbox.left + u - X = u - (X - bbox.left) from by ring]
          exact huu
        · rw [show bbox.top + v - Y = v - (Y - bbox.top) from by ring]
          exact hvv
      rw [if_pos hf, blurByte_eq_zero (by omega) (by omega) (by omega) (by omega) hz2]
      exact compositeByte_zero_alpha hbyte
  · rw [if_neg hin]

lemma bboxRow_id {alpha : ℤ → ℤ → ℕ} {w : ℕ} {y : ℕ}
    (hz : ∀ x : ℕ, x < w → alpha (x : ℤ) (y : ℤ) = 0) :
    ∀ (l : List ℕ), (∀ a ∈ l, a < w) → ∀ s : ScanSt,
      l.foldl (fun t (x : ℕ) => bboxStep alpha (y : ℤ) t (x : ℤ)) s = s := by
  intro l
  induction l with
  | nil => intro _ s; rfl
  | cons a as ih =>
    intro hl s
    simp only [List.foldl_cons]
    have hstep : bboxStep alpha (y : ℤ) s (a : ℤ) = s := by
      unfold bboxStep
      rw [hz a (hl a (List.mem_cons_self a as)), if_neg (lt_irrefl 0)]
    rw [hstep]
    exact ih (fun b hb => hl b (List.mem_cons_of_mem _ hb)) s

lemma bboxFromAlpha_eq_none {alpha : ℤ → ℤ → ℕ} {w h : ℕ}
    (hz : ∀ x y : ℕ, x < w → y < h → alpha (x : ℤ) (y : ℤ) = 0) :
    bboxFromAlpha alpha w h = none := by
  have hscan : bboxScan alpha w h = ⟨(w : ℤ), (h : ℤ), -1, -1⟩ := by
    unfold bboxScan
    have main : ∀ (l : List ℕ), (∀ a ∈ l, a < h) → ∀ s : ScanSt,
        l.foldl (fun t (yy : ℕ) => bboxRow alpha w (yy : ℤ) t) s = s := by
      intro l
      induction l with
      | nil => intro _ s; rfl
      | cons a as ih =>
        intro hl s
        simp only [List.foldl_cons]
        have hrow : bboxRow alpha w (a : ℤ) s = s := by
          unfold bboxRow
          exact bboxRow_id (fun x hx => hz x a hx (hl a (List.mem_cons_self a as)))
            (List.range w) (fun b hb => List.mem_range.mp hb) s
        rw [hrow]
        exact ih (fun b hb => hl b (List.mem_cons_of_mem _ hb)) s
    exact main (List.range h) (fun a ha => List.mem_range.mp ha) _
  unfold bboxFromAlpha
  rw [hscan]
  dsimp only
  rw [if_pos (Or.inl (by omega))]

/-- C4: Empty-mask rejection with no filesystem mutation: when the decoded
edit alpha is all zero on the mask raster, the edit handler fails with the
tag `empty_mask`, stage `mask_to_bbox`, HTTP status 400, and performs no
`saveToEdits` write. -/
theorem c4_empty_mask_rejection (orig : ℤ → ℤ → ℕ → ℕ) (imgW imgH : ℕ) (m : MaskImage)
    (edited : ℤ → ℤ → ℕ → ℕ) (feather padding : ℕ) (save : Bool)
    (hw : 0 < m.w) (hh : 0 < m.h)
    (hzero : ∀ x ∈ Finset.Icc 0 ((m.w : ℤ) - 1), ∀ y ∈ Finset.Icc 0 ((m.h : ℤ) - 1),
      computeEditAlpha m x y = 0) :
    (editHandler orig imgW imgH m edited feather padding save).error
        = some ("empty_mask", "mask_to_bbox", 400) ∧
      (editHandler orig imgW imgH m edited feather padding save).writes = 0 := by
  have hm : ¬(m.w = 0 ∨ m.h = 0) := by omega
  have hz0 : ∀ u v : ℤ, 0 ≤ u → u ≤ (m.w : ℤ) - 1 → 0 ≤ v → v ≤ (m.h : ℤ) - 1 →
      computeEditAlpha m u v = 0 := fun u v hu1 hu2 hv1 hv2 =>
    hzero u (Finset.mem_Icc.mpr ⟨hu1, hu2⟩) v (Finset.mem_Icc.mpr ⟨hv1, hv2⟩)
  have hb : bboxFromAlpha (inflateAlpha1ch (computeEditAlpha m) m.w m.h 1) m.w m.h = none := by
    refine bboxFromAlpha_eq_none fun x y hx hy => ?_
    refine inflateAlpha1ch_zero (by omega) (by omega) (by omega) (by omega) ?_
    intro u v _ _ hu0 huw hv0 hvh
    exact hz0 u v hu0 huw hv0 hvh
  constructor <;> simp [editHandler, hm, hb]

/-- C4 witness: an all-black 2 x 2 grayscale mask is rejected with
`empty_mask` at stage `mask_to_bbox` with status 400 and zero writes, even
with `save = true`. -/
theorem c4_witness :
    (editHandler origC1 2 2 maskC4 editedC1 2 12 true).error
        = some ("empty_mask", "mask_to_bbox", 400) ∧
      (editHandler origC1 2 2 maskC4 editedC1 2 12 true).writes = 0 :=
  c4_empty_mask_rejection origC1 2 2 maskC4 editedC1 2 12 true (by decide) (by decide) (by decide)

/-- C1 (amended): strict-composite exactness away from the dilated,
feathered region: in the edit pipeline with matching mask and image
dimensions, every pixel whose Chebyshev (feather + 1)-neighbourhood has
decoder edit alpha 0 is returned byte-identical to the base image on every
channel.  (The bare hypothesis "edit alpha 0 at the pixel itself" is not
sufficient: the route soft-dilates the alpha by 1 px and `strictComposite`
feathers it, see the counterexample.) -/
theorem c1_exact_outside_feathered_region
    (orig : ℤ → ℤ → ℕ → ℕ) (imgW imgH : ℕ) (m : MaskImage) (edited : ℤ → ℤ → ℕ → ℕ)
    (feather padding : ℕ) (save : Bool) (X Y : ℤ) (c : ℕ)
    (hdW : m.w = imgW) (hdH : m.h = imgH)
    (hbyte : orig X Y c ≤ 255)
    (hzero : ∀ u ∈ Finset.Icc (X - ((feather : ℤ) + 1)) (X + ((feather : ℤ) + 1)),
      ∀ v ∈ Finset.Icc (Y - ((feather : ℤ) + 1)) (Y + ((feather : ℤ) + 1)),
      computeEditAlpha m u v = 0)
    (hok : (editHandler orig imgW imgH m edited feather padding save).error = none) :
    (editHandler orig imgW imgH m edited feather padding save).out X Y c = orig X Y c := by
  subst hdW
  subst hdH
  by_cases hm : m.w = 0 ∨ m.h = 0
  · exfalso
    simp [editHandler, hm] at hok
  cases hb : bboxFromAlpha (inflateAlpha1ch (computeEditAlpha m) m.w m.h 1) m.w m.h with
  | none =>
    exfalso
    simp [editHandler, hm, hb] at hok
  | some b0 =>
    have hout : (editHandler orig m.w m.h m edited feather padding save).out
        = strictComposite orig m.w m.h edited (editAlphaImageSpace m m.w m.h)
            (padBBox b0 m.w m.h (padding : ℤ)) feather := by
      simp [editHandler, hm, hb]
    rw [hout]
    have hv := bboxFromAlpha_valid hb
    have hp := padBBox_valid (b := b0) (w := m.w) (h := m.h)
      (by omega) (by omega) (Int.ofNat_nonneg padding) hv.2.2.1 hv.2.2.2.2.2
    have hA1 : ∀ u v : ℤ, |u - X| ≤ (feather : ℤ) → |v - Y| ≤ (feather : ℤ) →
        0 ≤ u → u ≤ (m.w : ℤ) - 1 → 0 ≤ v → v ≤ (m.h : ℤ) - 1 →
        editAlphaImageSpace m m.w m.h u v = 0 := by
      intro u v hu hv2 hu0 huw hv0 hvh
      unfold editAlphaImageSpace alignedAlpha
      rw [if_pos ⟨rfl, rfl⟩]
      refine inflateAlpha1ch_zero hu0 huw hv0 hvh ?_
      intro p q hp1 hq1 hp0 hpw hq0 hqh
      push_cast at hp1 hq1
      refine hzero p ?_ q ?_
      · rw [Finset.mem_Icc]
        have habs : |p - X| ≤ (feather : ℤ) + 1 := by
          calc |p - X| = |(p - u) + (u - X)| := by congr 1; ring
          _ ≤ |p - u| + |u - X| := abs_add _ _
          _ ≤ 1 + (feather : ℤ) := add_le_add hp1 hu
          _ = (feather : ℤ) + 1 := by ring
        have hab2 := abs_le.mp habs
        omega
      · rw [Finset.mem_Icc]
        have habs : |q - Y| ≤ (feather : ℤ) + 1 := by
          calc |q - Y| = |(q - v) + (v - Y)| := by congr 1; ring
          _ ≤ |q - v| + |v - Y| := abs_add _ _
          _ ≤ 1 + (feather : ℤ) := add_le_add hq1 hv2
          _ = (feather : ℤ) + 1 := by ring
        have hab2 := abs_le.mp habs
        omega
    exact strictComposite_eq_orig hp.1 hp.2.1 hp.2.2.2.1 hp.2.2.2.2.1 hbyte hA1

/-- C1 witness: in the concrete 8 x 8 edit (block mask at 2..3 squared,
padding 1, feather 2), the pixel (7,7) — outside the dilated feathered
region — is returned with its original value 100. -/
theorem c1_witness :
    (editHandler origC1 8 8 maskC1 editedC1 2 1 false).out 7 7 0 = origC1 7 7 0 :=
  c1_exact_outside_feathered_region origC1 8 8 maskC1 editedC1 2 1 false 7 7 0
    rfl rfl (by decide) (by decide) (by decide)

/-- C1 counterexample: in the same concrete edit the pixel (1,1) has
decoder edit alpha 0, the request succeeds, and yet the output at (1,1)
differs from the original (the feathered alpha bleeds into the padded
bbox): the claim as stated is false on the code. -/
theorem c1_counterexample :
    computeEditAlpha maskC1 1 1 = 0 ∧
      (editHandler origC1 8 8 maskC1 editedC1 2 1 false).error = none ∧
      (editHandler origC1 8 8 maskC1 editedC1 2 1 false).out 1 1 0 ≠ origC1 1 1 0 := by
  refine ⟨by decide, by decide, by decide⟩

end ImageApp
